import Mathlib

/-!
# Verification of the terminalpub authentication / federation core

A shallow embedding, in Lean 4, of the core routines of the `terminalpub`
repository: provider-URL normalization, the device-code flow, SSH-key
binding and fingerprinting, the two-tier session store, and HTTP request
signing.  Go strings are embedded as `List Char`, byte slices as
`List Nat` (each element `< 256`), timestamps as integers (seconds), and
the SQL tables as in-memory lists of rows.  Each Go function used by a
claim is translated clause by clause from the source file it lives in.
-/

namespace Terminalpub

/-- A Go string, embedded as its list of characters. -/
abbrev GoStr := List Char

/-- Lift a Lean string literal to the embedding. -/
def str (s : String) : GoStr := s.data

deriving instance DecidableEq for Except

/-! ## Go `strings` package helpers (as used by the repository) -/

/-- Go `strings.TrimPrefix(s, pre)`: drop `pre` from the front when present,
otherwise return `s` unchanged. -/
def goTrimPre (s pre : GoStr) : GoStr :=
  if pre.isPrefixOf s then s.drop pre.length else s

/-- Go `strings.TrimSuffix(s, suf)`: drop `suf` from the end when present,
otherwise return `s` unchanged. -/
def goTrimSuf (s suf : GoStr) : GoStr :=
  if suf.isSuffixOf s then s.take (s.length - suf.length) else s

/-- ASCII uppercasing of one character (Go `strings.ToUpper` on ASCII input). -/
def upA (c : Char) : Char :=
  if 'a' ≤ c ∧ c ≤ 'z' then Char.ofNat (c.toNat - 32) else c

/-- ASCII lowercasing of one character (Go `strings.ToLower` on ASCII input). -/
def loA (c : Char) : Char :=
  if 'A' ≤ c ∧ c ≤ 'Z' then Char.ofNat (c.toNat + 32) else c

/-- Go `strings.ToUpper` restricted to ASCII, which is the repository's input
domain (user codes are generated from a base32 alphabet). -/
def goToUpper (s : GoStr) : GoStr := s.map upA

/-- Go `strings.ToLower` restricted to ASCII (used on HTTP method names). -/
def goToLower (s : GoStr) : GoStr := s.map loA

/-- Go `strings.ReplaceAll(s, " ", "")`: remove every space. -/
def goRemoveSpaces (s : GoStr) : GoStr := s.filter (fun c => c ≠ ' ')

/-- Go `strings.Join(parts, sep)`. -/
def goJoin (parts : List GoStr) (sep : GoStr) : GoStr :=
  (parts.intersperse sep).flatten

/-! ## `NormalizeInstanceURL` (src/internal/auth/mastodon.go, lines 56-66)

```go
func NormalizeInstanceURL(instance string) string {
    instance = strings.TrimPrefix(instance, "https://")
    instance = strings.TrimPrefix(instance, "http://")
    instance = strings.TrimSuffix(instance, "/")
    return "https://" + instance
}
```
-/

/-- The scheme- and slash-stripped core of `NormalizeInstanceURL`. -/
def strippedInst (inst : GoStr) : GoStr :=
  goTrimSuf (goTrimPre (goTrimPre inst (str "https://")) (str "http://")) (str "/")

/-- Function `NormalizeInstanceURL` from src/internal/auth/mastodon.go. -/
def NormalizeInstanceURL (inst : GoStr) : GoStr :=
  str "https://" ++ strippedInst inst

/-! ### Helper lemmas about the string operations -/

theorem isPrefixOf_append (a b : GoStr) : a.isPrefixOf (a ++ b) = true := by
  induction a with
  | nil => simp [List.isPrefixOf]
  | cons c cs ih => simp [List.isPrefixOf, ih]

theorem goTrimPre_append (a b : GoStr) : goTrimPre (a ++ b) a = b := by
  simp [goTrimPre, isPrefixOf_append, List.drop_left]

theorem goTrimPre_of_not (s pre : GoStr) (h : pre.isPrefixOf s = false) :
    goTrimPre s pre = s := by
  simp [goTrimPre, h]

theorem goTrimSuf_of_not (s suf : GoStr) (h : suf.isSuffixOf s = false) :
    goTrimSuf s suf = s := by
  simp [goTrimSuf, h]

/-- A one-character suffix test is a test on the last character. -/
theorem singleton_isSuffixOf_iff (c : Char) (u : GoStr) :
    ([c].isSuffixOf u = true) ↔ u.getLast? = some c := by
  rw [show ([c].isSuffixOf u) = ([c].isPrefixOf u.reverse) from rfl]
  rw [← List.head?_reverse]
  cases u.reverse with
  | nil => simp
  | cons b bs =>
    rw [List.isPrefixOf_cons₂]
    simp
    exact eq_comm

/-! ### C8: `NormalizeInstanceURL` -/

/-- C8 counterexample: the claim says the normalized URL never ends with `/`
and that normalization is idempotent.  `TrimSuffix` removes only one trailing
slash, so the input `"a//"` normalizes to `"https://a/"`, which ends with a
slash, and normalizing that result again changes it to `"https://a"`. -/
theorem normalizeInstanceURL_counterexample :
    NormalizeInstanceURL (str "a//") = str "https://a/" ∧
    (NormalizeInstanceURL (str "a//")).getLast? = some '/' ∧
    NormalizeInstanceURL (NormalizeInstanceURL (str "a//")) ≠
      NormalizeInstanceURL (str "a//") := by
  refine ⟨by decide, by decide, by decide⟩

/-- C8 (amended): `NormalizeInstanceURL` strips a leading `https://` then a
leading `http://` scheme and one trailing slash, then re-adds `https://`; the
result always begins with `https://`; when the stripped core is nonempty, does
not itself start with `http://`, and does not end with `/`, the result does
not end with `/` and normalizing again returns the same string. -/
theorem normalizeInstanceURL_amended (inst : GoStr)
    (h1 : strippedInst inst ≠ [])
    (h2 : (str "http://").isPrefixOf (strippedInst inst) = false)
    (h3 : (str "/").isSuffixOf (strippedInst inst) = false) :
    (str "https://").isPrefixOf (NormalizeInstanceURL inst) = true ∧
    (NormalizeInstanceURL inst).getLast? ≠ some '/' ∧
    NormalizeInstanceURL (NormalizeInstanceURL inst) = NormalizeInstanceURL inst := by
  refine ⟨isPrefixOf_append _ _, ?_, ?_⟩
  · rw [NormalizeInstanceURL, List.getLast?_append]
    cases ht : (strippedInst inst).getLast? with
    | none => exact absurd (List.getLast?_eq_none_iff.mp ht) h1
    | some c =>
      intro hc
      simp only [Option.or_some, Option.some.injEq] at hc
      subst hc
      have h3' : (['/'] : GoStr).isSuffixOf (strippedInst inst) = false := h3
      have := (singleton_isSuffixOf_iff '/' (strippedInst inst)).mpr ht
      rw [h3'] at this
      exact Bool.false_ne_true this
  · show str "https://" ++ strippedInst (str "https://" ++ strippedInst inst) = _
    have hs : strippedInst (str "https://" ++ strippedInst inst) = strippedInst inst := by
      rw [strippedInst, goTrimPre_append, goTrimPre_of_not _ _ h2, goTrimSuf_of_not _ _ h3]
    rw [hs]
    rfl

/-- C8 witness: the amended normalization theorem applied to the concrete
input `"example.com/"`. -/
theorem normalizeInstanceURL_amended_witness :
    (str "https://").isPrefixOf (NormalizeInstanceURL (str "example.com/")) = true ∧
    (NormalizeInstanceURL (str "example.com/")).getLast? ≠ some '/' ∧
    NormalizeInstanceURL (NormalizeInstanceURL (str "example.com/")) =
      NormalizeInstanceURL (str "example.com/") :=
  normalizeInstanceURL_amended (str "example.com/") (by decide) (by decide) (by decide)

/-! ## SHA-256 (Go `crypto/sha256`, as called by the repository)

A byte-level FIPS 180-4 SHA-256 over `List Nat`, with 32-bit words as
naturals reduced `% 2^32`.  This models the Go standard-library hash the
repository calls in `calculateFingerprint` and `SignRequest`. -/

/-- Truncate to a 32-bit word. -/
def w32 (x : Nat) : Nat := x % 4294967296

/-- Addition modulo `2^32`. -/
def addw (a b : Nat) : Nat := (a + b) % 4294967296

/-- Rotate a 32-bit word right by `n`. -/
def rotr (n x : Nat) : Nat := w32 ((x >>> n) ||| (x <<< (32 - n)))

/-- Bitwise complement of a 32-bit word. -/
def notw (x : Nat) : Nat := x ^^^ 4294967295

/-- The 64 SHA-256 round constants of FIPS 180-4, in decimal. -/
def shaK : List Nat :=
  [1116352408, 1899447441, 3049323471, 3921009573, 961987163,
   1508970993, 2453635748, 2870763221, 3624381080, 310598401,
   607225278, 1426881987, 1925078388, 2162078206, 2614888103,
   3248222580, 3835390401, 4022224774, 264347078, 604807628,
   770255983, 1249150122, 1555081692, 1996064986, 2554220882,
   2821834349, 2952996808, 3210313671, 3336571891, 3584528711,
   113926993, 338241895, 666307205, 773529912, 1294757372,
   1396182291, 1695183700, 1986661051, 2177026350, 2456956037,
   2730485921, 2820302411, 3259730800, 3345764771, 3516065817,
   3600352804, 4094571909, 275423344, 430227734, 506948616,
   659060556, 883997877, 958139571, 1322822218, 1537002063,
   1747873779, 1955562222, 2024104815, 2227730452, 2361852424,
   2428436474, 2756734187, 3204031479, 3329325298]

/-- The eight SHA-256 initial hash values of FIPS 180-4, in decimal. -/
def shaH0 : List Nat :=
  [1779033703, 3144134277, 1013904242, 2773480762, 1359893119,
   2600822924, 528734635, 1541459225]

/-- Big-endian 8-byte encoding (for the length field of the padding). -/
def be64 (x : Nat) : List Nat :=
  [56, 48, 40, 32, 24, 16, 8, 0].map (fun s => (x >>> s) % 256)

/-- SHA-256 padding: append `0x80`, zeros to 56 mod 64, and the bit length. -/
def padMsg (bs : List Nat) : List Nat :=
  let n := bs.length
  let k := (64 + 56 - ((n + 1) % 64)) % 64
  bs ++ [0x80] ++ List.replicate k 0 ++ be64 (8 * n)

/-- Process the padded message 64 bytes at a time, one application of `step`
per block; the fuel argument is the number of blocks. -/
def foldBlocks (step : List Nat → List Nat → List Nat) :
    Nat → List Nat → List Nat → List Nat
  | 0, st, _ => st
  | n + 1, st, l => foldBlocks step n (step st (l.take 64)) (l.drop 64)

/-- The lower sigma functions of the message schedule. -/
def sig0 (x : Nat) : Nat := rotr 7 x ^^^ rotr 18 x ^^^ (x >>> 3)

def sig1 (x : Nat) : Nat := rotr 17 x ^^^ rotr 19 x ^^^ (x >>> 10)

/-- The 64-word message schedule of one block. -/
def sched (block : List Nat) : List Nat :=
  let w0 := (List.range 16).map (fun i =>
    (block.getD (4 * i) 0) <<< 24 ||| (block.getD (4 * i + 1) 0) <<< 16 |||
    (block.getD (4 * i + 2) 0) <<< 8 ||| block.getD (4 * i + 3) 0)
  (List.range 48).foldl (fun w _ =>
    let n := w.length
    w ++ [addw (addw (w.getD (n - 16) 0) (sig0 (w.getD (n - 15) 0)))
              (addw (w.getD (n - 7) 0) (sig1 (w.getD (n - 2) 0)))]) w0

/-- One SHA-256 round on the eight-word working state. -/
def shaRound (st : List Nat) (wk : Nat × Nat) : List Nat :=
  let a := st.getD 0 0; let b := st.getD 1 0; let c := st.getD 2 0; let d := st.getD 3 0
  let e := st.getD 4 0; let f := st.getD 5 0; let g := st.getD 6 0; let h := st.getD 7 0
  let bigS1 := rotr 6 e ^^^ rotr 11 e ^^^ rotr 25 e
  let ch := (e &&& f) ^^^ (notw e &&& g)
  let t1 := addw (addw (addw h bigS1) (addw ch wk.2)) wk.1
  let bigS0 := rotr 2 a ^^^ rotr 13 a ^^^ rotr 22 a
  let maj := (a &&& b) ^^^ (a &&& c) ^^^ (b &&& c)
  let t2 := addw bigS0 maj
  [addw t1 t2, a, b, c, addw d t1, e, f, g]

/-- Compress one 64-byte block into the running state. -/
def compress (st : List Nat) (block : List Nat) : List Nat :=
  let fin := ((sched block).zip shaK).foldl shaRound st
  (st.zip fin).map (fun p => addw p.1 p.2)

/-- Big-endian serialization of the final state. -/
def wordsToBytes (ws : List Nat) : List Nat :=
  ws.flatMap (fun x => [(x >>> 24) % 256, (x >>> 16) % 256, (x >>> 8) % 256, x % 256])

/-- SHA-256 of a byte list (Go `sha256.Sum256`). -/
def sha256 (msg : List Nat) : List Nat :=
  let padded := padMsg (msg.map (· % 256))
  wordsToBytes (foldBlocks compress (padded.length / 64) shaH0 padded)

/-! ## Base64 (Go `encoding/base64` `StdEncoding` and `RawStdEncoding`) -/

/-- The standard base64 alphabet. -/
def b64Alphabet : GoStr :=
  str "ABCDEFGHIJKLMNOPQRSTUVWXYZabcdefghijklmnopqrstuvwxyz0123456789+/"

/-- The base64 character of a six-bit group. -/
def sx (n : Nat) : Char := b64Alphabet.getD (n % 64) 'A'

/-- Go `base64.StdEncoding.EncodeToString`: padded base64. -/
def base64Std : List Nat → GoStr
  | b0 :: b1 :: b2 :: rest =>
    [sx (b0 >>> 2), sx (((b0 &&& 3) <<< 4) ||| (b1 >>> 4)),
     sx (((b1 &&& 15) <<< 2) ||| (b2 >>> 6)), sx (b2 &&& 63)] ++ base64Std rest
  | [b0, b1] =>
    [sx (b0 >>> 2), sx (((b0 &&& 3) <<< 4) ||| (b1 >>> 4)), sx ((b1 &&& 15) <<< 2), '=']
  | [b0] => [sx (b0 >>> 2), sx ((b0 &&& 3) <<< 4), '=', '=']
  | [] => []

/-- Go `base64.RawStdEncoding.EncodeToString`: base64 without padding. -/
def base64Raw : List Nat → GoStr
  | b0 :: b1 :: b2 :: rest =>
    [sx (b0 >>> 2), sx (((b0 &&& 3) <<< 4) ||| (b1 >>> 4)),
     sx (((b1 &&& 15) <<< 2) ||| (b2 >>> 6)), sx (b2 &&& 63)] ++ base64Raw rest
  | [b0, b1] =>
    [sx (b0 >>> 2), sx (((b0 &&& 3) <<< 4) ||| (b1 >>> 4)), sx ((b1 &&& 15) <<< 2)]
  | [b0] => [sx (b0 >>> 2), sx ((b0 &&& 3) <<< 4)]
  | [] => []

/-- No base64 data character is the padding character. -/
theorem sx_ne_pad (n : Nat) : (sx n != '=') = true := by
  have hlt : n % 64 < 64 := Nat.mod_lt _ (by decide)
  have : ∀ m, m < 64 → (b64Alphabet.getD m 'A' != '=') = true := by decide
  exact this (n % 64) hlt

/-- Unpadded base64 is exactly padded base64 with the `=` characters removed. -/
theorem base64Raw_eq_filter (bs : List Nat) :
    base64Raw bs = (base64Std bs).filter (fun c => c != '=') := by
  have hpad : (('=' : Char) != '=') = false := by decide
  induction bs using base64Raw.induct with
  | case1 b0 b1 b2 rest ih =>
    simp [base64Raw, base64Std, List.filter, sx_ne_pad, hpad, ih]
  | case2 b0 b1 =>
    simp [base64Raw, base64Std, List.filter, sx_ne_pad, hpad]
  | case3 b0 =>
    simp [base64Raw, base64Std, List.filter, sx_ne_pad, hpad]
  | case4 =>
    rfl

/-! ## `calculateFingerprint` (src/internal/auth/sshkey.go, lines 51-55)

```go
func calculateFingerprint(publicKey ssh.PublicKey) string {
    hash := sha256.Sum256(publicKey.Marshal())
    b64 := base64.RawStdEncoding.EncodeToString(hash[:])
    return "SHA256:" + b64
}
```
The `ssh.PublicKey` argument is represented by its wire encoding
(`publicKey.Marshal()`), a byte list. -/

/-- Function `calculateFingerprint` from src/internal/auth/sshkey.go. -/
def calculateFingerprint (wire : List Nat) : GoStr :=
  str "SHA256:" ++ base64Raw (sha256 wire)

/-! ### C7: the SSH-key fingerprint -/

/-- C7: the fingerprint of a key equals `"SHA256:"` followed by the unpadded
base64 (padded base64 with every `=` removed) of the SHA-256 hash of the
key's wire encoding, and the computation is deterministic: any equal wire
encoding yields the same fingerprint. -/
theorem calculateFingerprint_spec (wire : List Nat) :
    calculateFingerprint wire =
      str "SHA256:" ++ (base64Std (sha256 wire)).filter (fun c => c != '=') ∧
    ∀ wire2, wire2 = wire → calculateFingerprint wire2 = calculateFingerprint wire := by
  refine ⟨?_, ?_⟩
  · rw [calculateFingerprint, base64Raw_eq_filter]
  · intro wire2 h
    rw [h]

/-- C7 witness: the fingerprint theorem applied at the concrete wire
encoding `[0, 1, 2]`. -/
theorem calculateFingerprint_spec_witness :
    calculateFingerprint [0, 1, 2] =
      str "SHA256:" ++ (base64Std (sha256 [0, 1, 2])).filter (fun c => c != '=') ∧
    calculateFingerprint [0, 1, 2] = calculateFingerprint [0, 1, 2] :=
  ⟨(calculateFingerprint_spec [0, 1, 2]).1,
   (calculateFingerprint_spec [0, 1, 2]).2 [0, 1, 2] rfl⟩

/-! ## The device-code flow (src/internal/auth/mastodon.go)

The `device_codes` table is a list of rows; `NOW()` is an explicit integer
timestamp argument.  A SQL `UPDATE ... WHERE cond` is a `List.map` that
rewrites exactly the rows satisfying `cond`, with `RowsAffected() = 0`
exactly when no row satisfies it. -/

/-- One row of the `device_codes` table (`models.DeviceCode`). -/
structure DeviceCodeRow where
  id : Int
  userCode : GoStr
  deviceCode : GoStr
  instanceURL : GoStr
  sshSessionID : GoStr
  verificationURI : GoStr
  expiresAt : Int
  authorized : Bool
  userID : Option Int
  createdAt : Int
deriving DecidableEq, Repr

/-- User-code normalization performed by `AuthorizeDeviceCode` and
`GetDeviceCodeByUserCode`: remove spaces, then uppercase. -/
def normalizeUserCode (userCode : GoStr) : GoStr :=
  goToUpper (goRemoveSpaces userCode)

/-- The `WHERE` clause of `AuthorizeDeviceCode`'s `UPDATE`:
`user_code = $2 AND authorized = FALSE AND expires_at > NOW()`. -/
def authHit (now : Int) (uc : GoStr) (r : DeviceCodeRow) : Bool :=
  r.userCode == uc && !r.authorized && decide (now < r.expiresAt)

/-- The `SET authorized = TRUE, user_id = $1` clause. -/
def authSet (uid : Int) (r : DeviceCodeRow) : DeviceCodeRow :=
  { r with authorized := true, userID := some uid }

/-- Function `AuthorizeDeviceCode` from src/internal/auth/mastodon.go: normalize the
user code, run the guarded `UPDATE`, and report an error when no row was
affected. -/
def authorizeDeviceCode (db : List DeviceCodeRow) (now : Int) (userCode : GoStr)
    (uid : Int) : List DeviceCodeRow × Except String Unit :=
  let uc := normalizeUserCode userCode
  let db2 := db.map (fun r => if authHit now uc r then authSet uid r else r)
  (db2, if db.any (authHit now uc) then .ok ()
        else .error "device code not found or already authorized")

/-- Function `GetDeviceCodeByDeviceCode` from src/internal/auth/mastodon.go: select
the row by device code, then reject it when `time.Now().After(ExpiresAt)`. -/
def getDeviceCodeByDeviceCode (db : List DeviceCodeRow) (now : Int) (dc : GoStr) :
    Except String DeviceCodeRow :=
  match db.find? (fun r => r.deviceCode == dc) with
  | none => .error "device code not found"
  | some r => if r.expiresAt < now then .error "device code expired" else .ok r

/-- Function `PollDeviceCode` from src/internal/auth/mastodon.go: report
`(true, *UserID)` only when the row is authorized and carries a user id. -/
def pollDeviceCode (db : List DeviceCodeRow) (now : Int) (dc : GoStr) :
    Except String (Bool × Int) :=
  match getDeviceCodeByDeviceCode db now dc with
  | .error e => .error e
  | .ok r =>
    if r.authorized then
      match r.userID with
      | some uid => .ok (true, uid)
      | none => .ok (false, 0)
    else .ok (false, 0)

/-! ### Generic list lemmas for the SQL embedding -/

theorem find?_unique {α : Type} (p : α → Bool) (l : List α) (r : α)
    (hr : r ∈ l) (hp : p r = true) (huniq : ∀ x ∈ l, p x = true → x = r) :
    l.find? p = some r := by
  induction l with
  | nil => cases hr
  | cons a t ih =>
    by_cases ha : p a = true
    · have : a = r := huniq a (List.mem_cons_self a t) ha
      subst this
      simp [List.find?, hp]
    · have hbool : p a = false := by
        cases h : p a with
        | true => exact absurd h ha
        | false => rfl
      have hrt : r ∈ t := by
        rcases List.mem_cons.mp hr with h | h
        · exact absurd (h ▸ hp) ha
        · exact h
      rw [List.find?, hbool]
      exact ih hrt (fun x hx hpx => huniq x (List.mem_cons_of_mem a hx) hpx)

theorem map_guard_id {α : Type} (f : α → α) (p : α → Bool) (l : List α)
    (h : ∀ x ∈ l, p x = false) :
    l.map (fun x => if p x then f x else x) = l := by
  induction l with
  | nil => rfl
  | cons a t ih =>
    have ha := h a (List.mem_cons_self a t)
    simp [ha, ih (fun x hx => h x (List.mem_cons_of_mem a hx))]

theorem any_eq_false_of_all {α : Type} (p : α → Bool) (l : List α)
    (h : ∀ x ∈ l, p x = false) : l.any p = false := by
  induction l with
  | nil => rfl
  | cons a t ih =>
    simp [List.any_cons, h a (List.mem_cons_self a t),
          ih (fun x hx => h x (List.mem_cons_of_mem a hx))]

/-- When no row satisfies the `UPDATE` guard, `AuthorizeDeviceCode` reports
an error and leaves the table unchanged. -/
theorem authorize_of_no_hit (db : List DeviceCodeRow) (now : Int) (userCode : GoStr)
    (uid : Int) (h : ∀ x ∈ db, authHit now (normalizeUserCode userCode) x = false) :
    authorizeDeviceCode db now userCode uid =
      (db, .error "device code not found or already authorized") := by
  rw [authorizeDeviceCode]
  rw [map_guard_id _ _ _ h, any_eq_false_of_all _ _ h]
  rfl

/-- The guard holds on a matching pending unexpired row. -/
theorem authHit_of_pending (now : Int) (uc : GoStr) (r : DeviceCodeRow)
    (hcode : r.userCode = uc) (hp : r.authorized = false) (he : now < r.expiresAt) :
    authHit now uc r = true := by
  simp [authHit, hcode, hp, he]

/-! ### C2: `AuthorizeDeviceCode` succeeds at most once -/

/-- C2: on a table whose unique row for the (normalized) user code is pending
and unexpired, `AuthorizeDeviceCode` succeeds, sets the authorized flag and
the identity id of that row, and touches no other row; on a table whose row
for the code is already authorized or past expiry it returns an error and
leaves the table unchanged; and a second call after a successful first call
always fails and leaves the table unchanged. -/
theorem authorizeDeviceCode_at_most_once
    (db : List DeviceCodeRow) (now now2 : Int) (userCode : GoStr) (uid uid2 : Int)
    (r : DeviceCodeRow)
    (hr : r ∈ db)
    (hcode : r.userCode = normalizeUserCode userCode)
    (huniq : ∀ x ∈ db, x.userCode = normalizeUserCode userCode → x = r) :
    (r.authorized = false → now < r.expiresAt →
       (authorizeDeviceCode db now userCode uid).2 = .ok () ∧
       authSet uid r ∈ (authorizeDeviceCode db now userCode uid).1 ∧
       ∀ x ∈ db, x.userCode ≠ normalizeUserCode userCode →
         x ∈ (authorizeDeviceCode db now userCode uid).1) ∧
    (r.authorized = true ∨ r.expiresAt ≤ now →
       authorizeDeviceCode db now userCode uid =
         (db, .error "device code not found or already authorized")) ∧
    (r.authorized = false → now < r.expiresAt →
       authorizeDeviceCode (authorizeDeviceCode db now userCode uid).1 now2 userCode uid2 =
         ((authorizeDeviceCode db now userCode uid).1,
          .error "device code not found or already authorized")) := by
  refine ⟨?_, ?_, ?_⟩
  · intro hp he
    have hhit := authHit_of_pending now _ r hcode hp he
    have hany : db.any (authHit now (normalizeUserCode userCode)) = true :=
      List.any_eq_true.mpr ⟨r, hr, hhit⟩
    refine ⟨?_, ?_, ?_⟩
    · simp [authorizeDeviceCode, hany]
    · simp only [authorizeDeviceCode]
      exact List.mem_map.mpr ⟨r, hr, by simp [hhit]⟩
    · intro x hx hxc
      simp only [authorizeDeviceCode]
      refine List.mem_map.mpr ⟨x, hx, ?_⟩
      have hb : (x.userCode == normalizeUserCode userCode) = false :=
        beq_eq_false_iff_ne.mpr hxc
      simp [authHit, hb]
  · intro hcase
    apply authorize_of_no_hit
    intro x hx
    by_cases hxc : x.userCode = normalizeUserCode userCode
    · have hx_eq := huniq x hx hxc
      subst hx_eq
      rcases hcase with h | h
      · simp [authHit, h]
      · have : (decide (now < x.expiresAt)) = false := decide_eq_false (not_lt.mpr h)
        simp [authHit, this]
    · have hb : (x.userCode == normalizeUserCode userCode) = false :=
        beq_eq_false_iff_ne.mpr hxc
      simp [authHit, hb]
  · intro hp he
    have hhit := authHit_of_pending now _ r hcode hp he
    apply authorize_of_no_hit
    intro x hx
    simp only [authorizeDeviceCode] at hx
    rcases List.mem_map.mp hx with ⟨y, hy, rfl⟩
    by_cases hyh : authHit now (normalizeUserCode userCode) y = true
    · rw [if_pos hyh]
      simp [authHit, authSet]
    · have hyb : authHit now (normalizeUserCode userCode) y = false :=
        Bool.eq_false_iff.mpr hyh
      rw [if_neg (by simp [hyb])]
      by_cases hyc : y.userCode = normalizeUserCode userCode
      · have := huniq y hy hyc
        subst this
        exact absurd hhit hyh
      · have hb : (y.userCode == normalizeUserCode userCode) = false :=
          beq_eq_false_iff_ne.mpr hyc
        simp [authHit, hb]

/-- A concrete pending device-code row used by the witnesses. -/
def dcRow0 : DeviceCodeRow :=
  { id := 1, userCode := str "WXYZ1234", deviceCode := str "devcode",
    instanceURL := str "https://mastodon.social", sshSessionID := str "sess",
    verificationURI := str "https://tp/verify", expiresAt := 900,
    authorized := false, userID := none, createdAt := 0 }

/-- C2 witness: the at-most-once theorem applied to a one-row table with the
user entering the code as `"wxyz 1234"` (spaces and case are normalized). -/
theorem authorizeDeviceCode_at_most_once_witness :
    ((authorizeDeviceCode [dcRow0] 10 (str "wxyz 1234") 7).2 = .ok () ∧
     authSet 7 dcRow0 ∈ (authorizeDeviceCode [dcRow0] 10 (str "wxyz 1234") 7).1 ∧
     ∀ x ∈ [dcRow0], x.userCode ≠ normalizeUserCode (str "wxyz 1234") →
       x ∈ (authorizeDeviceCode [dcRow0] 10 (str "wxyz 1234") 7).1) ∧
    authorizeDeviceCode (authorizeDeviceCode [dcRow0] 10 (str "wxyz 1234") 7).1
        20 (str "wxyz 1234") 8 =
      ((authorizeDeviceCode [dcRow0] 10 (str "wxyz 1234") 7).1,
       .error "device code not found or already authorized") := by
  have h := authorizeDeviceCode_at_most_once [dcRow0] 10 20 (str "wxyz 1234") 7 8 dcRow0
    (by decide) (by decide) (by decide)
  exact ⟨h.1 (by decide) (by decide), h.2.2 (by decide) (by decide)⟩

/-- Selecting by device code on a table whose unique row for that code is
`r`, before expiry, yields `r`. -/
theorem getDeviceCode_ok (db : List DeviceCodeRow) (now : Int) (dc : GoStr)
    (r : DeviceCodeRow) (hr : r ∈ db) (hdc : r.deviceCode = dc)
    (huniq : ∀ x ∈ db, x.deviceCode = dc → x = r) (hne : ¬ r.expiresAt < now) :
    getDeviceCodeByDeviceCode db now dc = .ok r := by
  rw [getDeviceCodeByDeviceCode,
      find?_unique _ db r hr (by simp [hdc]) (fun x hx hpx => huniq x hx (by simpa using hpx))]
  simp [hne]

/-- Selecting by device code after the row's expiry yields the expiry error. -/
theorem getDeviceCode_expired (db : List DeviceCodeRow) (now : Int) (dc : GoStr)
    (r : DeviceCodeRow) (hr : r ∈ db) (hdc : r.deviceCode = dc)
    (huniq : ∀ x ∈ db, x.deviceCode = dc → x = r) (hlt : r.expiresAt < now) :
    getDeviceCodeByDeviceCode db now dc = .error "device code expired" := by
  rw [getDeviceCodeByDeviceCode,
      find?_unique _ db r hr (by simp [hdc]) (fun x hx hpx => huniq x hx (by simpa using hpx))]
  simp [hlt]

/-- After the `AuthorizeDeviceCode` update, the row found for the device code
is the (possibly updated) original row. -/
theorem authorized_table_find (db : List DeviceCodeRow) (now : Int) (uc : GoStr)
    (uid : Int) (dc : GoStr) (r : DeviceCodeRow)
    (hr : r ∈ db) (hdc : r.deviceCode = dc)
    (huniqD : ∀ x ∈ db, x.deviceCode = dc → x = r) :
    (db.map (fun x => if authHit now uc x then authSet uid x else x)).find?
        (fun x => x.deviceCode == dc) =
      some (if authHit now uc r then authSet uid r else r) := by
  apply find?_unique
  · exact List.mem_map.mpr ⟨r, hr, rfl⟩
  · by_cases h : authHit now uc r = true <;> simp [h, authSet, hdc]
  · intro x hx hpx
    rcases List.mem_map.mp hx with ⟨y, hy, rfl⟩
    have hyd : y.deviceCode = dc := by
      by_cases h : authHit now uc y = true
      · simpa [h, authSet] using hpx
      · simpa [h] using hpx
    rw [huniqD y hy hyd]

/-! ### C4: `PollDeviceCode` through the device-code lifecycle -/

/-- C4: on a table whose unique row for the device code is `r` (which is also
the unique row for the normalized user code): polling before expiry and
before authorization yields `(false, 0)` with no error; after a pending
unexpired row is authorized with identity `uid`, polling before expiry yields
`(true, uid)`; and polling after the row's expiry yields the expiry error,
both on the original table and after a successful authorization. -/
theorem pollDeviceCode_spec
    (db : List DeviceCodeRow) (now now2 now3 : Int) (userCode dc : GoStr) (uid : Int)
    (r : DeviceCodeRow)
    (hr : r ∈ db) (hdc : r.deviceCode = dc)
    (hcode : r.userCode = normalizeUserCode userCode)
    (huniqD : ∀ x ∈ db, x.deviceCode = dc → x = r) :
    (¬ r.expiresAt < now → r.authorized = false →
       pollDeviceCode db now dc = .ok (false, 0)) ∧
    (r.authorized = false → now < r.expiresAt → ¬ r.expiresAt < now2 →
       pollDeviceCode (authorizeDeviceCode db now userCode uid).1 now2 dc =
         .ok (true, uid)) ∧
    (r.expiresAt < now3 →
       pollDeviceCode db now3 dc = .error "device code expired" ∧
       pollDeviceCode (authorizeDeviceCode db now userCode uid).1 now3 dc =
         .error "device code expired") := by
  have hfind := authorized_table_find db now (normalizeUserCode userCode) uid dc r hr hdc huniqD
  refine ⟨?_, ?_, ?_⟩
  · intro hne hnauth
    rw [pollDeviceCode, getDeviceCode_ok db now dc r hr hdc huniqD hne]
    simp [hnauth]
  · intro hp he hne2
    have hhit := authHit_of_pending now _ r hcode hp he
    rw [if_pos hhit] at hfind
    rw [pollDeviceCode]
    simp only [authorizeDeviceCode]
    rw [getDeviceCodeByDeviceCode, hfind]
    simp [authSet, hne2]
  · intro h3
    refine ⟨?_, ?_⟩
    · rw [pollDeviceCode, getDeviceCode_expired db now3 dc r hr hdc huniqD h3]
    · rw [pollDeviceCode]
      simp only [authorizeDeviceCode]
      rw [getDeviceCodeByDeviceCode, hfind]
      by_cases hh : authHit now (normalizeUserCode userCode) r = true <;>
        simp [hh, authSet, h3]

/-- C4 witness: the polling theorem applied to the one-row table `dcRow0`
(expiry 900): poll at 10 is pending, authorize at 10 then poll at 20 returns
the recorded identity, and polls at 1000 report expiry. -/
theorem pollDeviceCode_spec_witness :
    pollDeviceCode [dcRow0] 10 (str "devcode") = .ok (false, 0) ∧
    pollDeviceCode (authorizeDeviceCode [dcRow0] 10 (str "wxyz 1234") 7).1 20
        (str "devcode") = .ok (true, 7) ∧
    pollDeviceCode [dcRow0] 1000 (str "devcode") = .error "device code expired" ∧
    pollDeviceCode (authorizeDeviceCode [dcRow0] 10 (str "wxyz 1234") 7).1 1000
        (str "devcode") = .error "device code expired" := by
  have h := pollDeviceCode_spec [dcRow0] 10 20 1000 (str "wxyz 1234") (str "devcode") 7
    dcRow0 (by decide) (by decide) (by decide) (by decide)
  exact ⟨h.1 (by decide) (by decide), h.2.1 (by decide) (by decide) (by decide),
         (h.2.2 (by decide)).1, (h.2.2 (by decide)).2⟩

/-! ### C9: an authorized row without an identity id polls as "not yet" -/

/-- C9: when the unique row for a device code has the authorized flag set but
a null identity id, `PollDeviceCode` before expiry returns `(false, 0)` with
no error — indistinguishable from a not-yet-authorized code. -/
theorem pollDeviceCode_null_identity (db : List DeviceCodeRow) (now : Int)
    (dc : GoStr) (r : DeviceCodeRow)
    (hr : r ∈ db) (hdc : r.deviceCode = dc)
    (huniq : ∀ x ∈ db, x.deviceCode = dc → x = r)
    (hauth : r.authorized = true) (hnone : r.userID = none)
    (hne : ¬ r.expiresAt < now) :
    pollDeviceCode db now dc = .ok (false, 0) := by
  rw [pollDeviceCode, getDeviceCode_ok db now dc r hr hdc huniq hne]
  simp [hauth, hnone]

/-- C9 witness: the null-identity polling theorem on a concrete authorized
row whose identity id is null. -/
theorem pollDeviceCode_null_identity_witness :
    pollDeviceCode [{ dcRow0 with authorized := true, userID := none }] 10
      (str "devcode") = .ok (false, 0) :=
  pollDeviceCode_null_identity [{ dcRow0 with authorized := true, userID := none }]
    10 (str "devcode") { dcRow0 with authorized := true, userID := none }
    (by decide) (by decide) (by decide) (by decide) (by decide) (by decide)

/-! ## SSH key binding (src/internal/auth/sshkey.go, `AddSSHKeyToUser`)

A parsed SSH public key is represented by the data `ssh.ParseAuthorizedKey`
extracts from the single-line text: the wire encoding (`Marshal()`), the key
type, the comment, and the trimmed text itself; `calculateFingerprint` is
applied to the wire encoding exactly as in `ParseSSHPublicKey`.  The
`user_ssh_keys` table is a list of rows; the sequence-assigned id and the
`NOW()` timestamp of the insert are explicit arguments. -/

/-- One row of the `user_ssh_keys` table. -/
structure SSHKeyRow where
  id : Int
  userID : Int
  publicKey : GoStr
  fingerprint : GoStr
  keyType : GoStr
  comment : GoStr
  lastUsedAt : Int
  createdAt : Int
  updatedAt : Int
deriving DecidableEq, Repr

/-- The data `ParseSSHPublicKey` extracts from a valid key line. -/
structure ParsedSSHKey where
  wire : List Nat
  keyType : GoStr
  comment : GoStr
  text : GoStr
deriving DecidableEq, Repr

/-- The global-uniqueness probe of `AddSSHKeyToUser`:
`SELECT user_id FROM user_ssh_keys WHERE fingerprint = $1 OR public_key = $2`. -/
def keyMatches (fp text : GoStr) (row : SSHKeyRow) : Bool :=
  row.fingerprint == fp || row.publicKey == text

/-- Function `AddSSHKeyToUser` from src/internal/auth/sshkey.go: check global
uniqueness first, then insert. -/
def addSSHKeyToUser (db : List SSHKeyRow) (uid : Int) (key : ParsedSSHKey)
    (newId now : Int) : List SSHKeyRow × Except String SSHKeyRow :=
  let fp := calculateFingerprint key.wire
  match db.find? (keyMatches fp key.text) with
  | some row =>
    (db, if row.userID == uid then .error "SSH key already associated with this user"
         else .error "SSH key already associated with another user")
  | none =>
    let newRow : SSHKeyRow :=
      { id := newId, userID := uid, publicKey := key.text, fingerprint := fp,
        keyType := key.keyType, comment := key.comment,
        lastUsedAt := now, createdAt := now, updatedAt := now }
    (db ++ [newRow], .ok newRow)

/-! ### C3: `AddSSHKeyToUser` never reassigns a bound key -/

/-- C3: binding a key already bound to a different identity returns the
conflict error and inserts no row; binding a key already bound to the same
identity returns the benign "already bound" error and inserts no row;
binding a key bound to no identity appends exactly one new binding carrying
that identity, the key text, and the key's fingerprint. -/
theorem addSSHKeyToUser_spec (db : List SSHKeyRow) (uid : Int) (key : ParsedSSHKey)
    (newId now : Int) :
    (∀ row ∈ db, keyMatches (calculateFingerprint key.wire) key.text row = true →
       (∀ x ∈ db, keyMatches (calculateFingerprint key.wire) key.text x = true → x = row) →
       (row.userID ≠ uid →
          addSSHKeyToUser db uid key newId now =
            (db, .error "SSH key already associated with another user")) ∧
       (row.userID = uid →
          addSSHKeyToUser db uid key newId now =
            (db, .error "SSH key already associated with this user"))) ∧
    ((∀ x ∈ db, keyMatches (calculateFingerprint key.wire) key.text x = false) →
       addSSHKeyToUser db uid key newId now =
         (db ++ [{ id := newId, userID := uid, publicKey := key.text,
                   fingerprint := calculateFingerprint key.wire,
                   keyType := key.keyType, comment := key.comment,
                   lastUsedAt := now, createdAt := now, updatedAt := now }],
          .ok { id := newId, userID := uid, publicKey := key.text,
                fingerprint := calculateFingerprint key.wire,
                keyType := key.keyType, comment := key.comment,
                lastUsedAt := now, createdAt := now, updatedAt := now })) := by
  refine ⟨?_, ?_⟩
  · intro row hrow hmatch huniq
    have hfind := find?_unique (keyMatches (calculateFingerprint key.wire) key.text)
      db row hrow hmatch huniq
    constructor
    · intro hne
      have hb : (row.userID == uid) = false := beq_eq_false_iff_ne.mpr hne
      rw [addSSHKeyToUser, hfind]
      simp [hb]
    · intro heq
      have hb : (row.userID == uid) = true := beq_iff_eq.mpr heq
      rw [addSSHKeyToUser, hfind]
      simp [hb]
  · intro hnone
    have hfind : db.find? (keyMatches (calculateFingerprint key.wire) key.text) = none :=
      List.find?_eq_none.mpr (fun x hx => by simp [hnone x hx])
    rw [addSSHKeyToUser, hfind]

/-- A concrete existing binding used by the C3 witness. -/
def keyRow0 : SSHKeyRow :=
  { id := 1, userID := 5, publicKey := str "ssh-ed25519 AAAA alice",
    fingerprint := calculateFingerprint [1, 2, 3], keyType := str "ssh-ed25519",
    comment := str "alice", lastUsedAt := 0, createdAt := 0, updatedAt := 0 }

/-- A distinct key, bound to nobody in the witness table. -/
def parsedKey1 : ParsedSSHKey :=
  { wire := [9, 9], keyType := str "ssh-ed25519", comment := str "bob",
    text := str "ssh-ed25519 BBBB bob" }

set_option maxRecDepth 100000 in
/-- C3 witness: on the one-row table `[keyRow0]`, re-binding `keyRow0`'s key
text to identity 6 conflicts, re-binding it to identity 5 is "already
bound", and binding the fresh key `parsedKey1` to identity 6 inserts one row. -/
theorem addSSHKeyToUser_spec_witness :
    (addSSHKeyToUser [keyRow0] 6
        { wire := [1, 2, 3], keyType := str "ssh-ed25519", comment := str "alice",
          text := str "ssh-ed25519 AAAA alice" } 2 50 =
      ([keyRow0], .error "SSH key already associated with another user")) ∧
    (addSSHKeyToUser [keyRow0] 5
        { wire := [1, 2, 3], keyType := str "ssh-ed25519", comment := str "alice",
          text := str "ssh-ed25519 AAAA alice" } 2 50 =
      ([keyRow0], .error "SSH key already associated with this user")) ∧
    addSSHKeyToUser [keyRow0] 6 parsedKey1 2 50 =
      ([keyRow0, { id := 2, userID := 6, publicKey := parsedKey1.text,
                   fingerprint := calculateFingerprint parsedKey1.wire,
                   keyType := parsedKey1.keyType, comment := parsedKey1.comment,
                   lastUsedAt := 50, createdAt := 50, updatedAt := 50 }],
       .ok { id := 2, userID := 6, publicKey := parsedKey1.text,
             fingerprint := calculateFingerprint parsedKey1.wire,
             keyType := parsedKey1.keyType, comment := parsedKey1.comment,
             lastUsedAt := 50, createdAt := 50, updatedAt := 50 }) := by
  have hsame : keyMatches (calculateFingerprint ([1, 2, 3] : List Nat)) (str "ssh-ed25519 AAAA alice") keyRow0 = true := by
    simp [keyMatches, keyRow0]
  have h1 := addSSHKeyToUser_spec [keyRow0] 6
    { wire := [1, 2, 3], keyType := str "ssh-ed25519", comment := str "alice",
      text := str "ssh-ed25519 AAAA alice" } 2 50
  have h2 := addSSHKeyToUser_spec [keyRow0] 5
    { wire := [1, 2, 3], keyType := str "ssh-ed25519", comment := str "alice",
      text := str "ssh-ed25519 AAAA alice" } 2 50
  have h3 := addSSHKeyToUser_spec [keyRow0] 6 parsedKey1 2 50
  refine ⟨?_, ?_, ?_⟩
  · exact (h1.1 keyRow0 (List.mem_singleton.mpr rfl) hsame
      (fun x hx _ => List.mem_singleton.mp hx)).1 (by decide)
  · exact (h2.1 keyRow0 (List.mem_singleton.mpr rfl) hsame
      (fun x hx _ => List.mem_singleton.mp hx)).2 rfl
  · refine h3.2 ?_
    intro x hx
    rw [List.mem_singleton.mp hx]
    decide

/-! ## The two-tier session store (src/internal/auth/sshkey.go, SessionManager)

The Redis cache is a keyed list (the JSON marshal/unmarshal round trip is
the identity on `SessionData`, and TTL eviction is subsumed by the explicit
expiry check every read performs); the `sessions` table is a list of rows;
`NOW()` is an explicit argument.  The fire-and-forget `UpdateLastSeen`
goroutines touch only `last_seen_at` and are omitted. -/

/-- Cached/durable session state (`SessionData` in sshkey.go). -/
structure SessionData where
  sessionID : GoStr
  userID : Option Int
  username : GoStr
  publicKey : GoStr
  ipAddress : GoStr
  anonymous : Bool
  createdAt : Int
  lastSeenAt : Int
  expiresAt : Int
deriving DecidableEq, Repr

/-- The two tiers plus the `users` table (for the username join). -/
structure SessStore where
  redis : List (GoStr × SessionData)
  sessions : List SessionData
  users : List (Int × GoStr)
deriving DecidableEq, Repr

/-- The cache key `"session:" + sessionID`. -/
def redisKey (sid : GoStr) : GoStr := str "session:" ++ sid

/-- Redis `GET`. -/
def redisGet (cache : List (GoStr × SessionData)) (k : GoStr) : Option SessionData :=
  (cache.find? (fun p => p.1 == k)).map (fun p => p.2)

/-- Redis `SET`. -/
def redisSet (cache : List (GoStr × SessionData)) (k : GoStr) (v : SessionData) :
    List (GoStr × SessionData) :=
  if cache.any (fun p => p.1 == k) then
    cache.map (fun p => if p.1 == k then (k, v) else p)
  else cache ++ [(k, v)]

/-- Redis `DEL`. -/
def redisDel (cache : List (GoStr × SessionData)) (k : GoStr) :
    List (GoStr × SessionData) :=
  cache.filter (fun p => p.1 != k)

/-- The `LEFT JOIN users` of the durable read: a null user id or a missing
user row leaves the username empty. -/
def lookupUsername (users : List (Int × GoStr)) (uid? : Option Int) : GoStr :=
  match uid? with
  | none => []
  | some uid =>
    match users.find? (fun p => p.1 == uid) with
    | some p => p.2
    | none => []

/-- Function `DeleteSession`: drop the cache key and the durable row. -/
def deleteSession (st : SessStore) (sid : GoStr) : SessStore :=
  { st with redis := redisDel st.redis (redisKey sid),
            sessions := st.sessions.filter (fun s => s.sessionID != sid) }

/-- Function `getSessionFromRedis`: a cache hit past its expiry deletes the session
from both tiers and reports expiry. -/
def getSessionFromRedis (st : SessStore) (now : Int) (sid : GoStr) :
    SessStore × Except String SessionData :=
  match redisGet st.redis (redisKey sid) with
  | none => (st, .error "session not in cache")
  | some data =>
    if data.expiresAt < now then (deleteSession st sid, .error "session expired")
    else (st, .ok data)

/-- Function `getSessionFromDB`: `WHERE s.id = $1 AND s.expires_at > NOW()`, with the
username joined in. -/
def getSessionFromDB (st : SessStore) (now : Int) (sid : GoStr) :
    Except String SessionData :=
  match st.sessions.find? (fun s => s.sessionID == sid && decide (now < s.expiresAt)) with
  | none => .error "session not found in database"
  | some s => .ok { s with username := lookupUsername st.users s.userID }

/-- Function `cacheSession`: skip the write when the remaining TTL is not positive. -/
def cacheSession (st : SessStore) (now : Int) (data : SessionData) : SessStore :=
  if data.expiresAt - now ≤ 0 then st
  else { st with redis := redisSet st.redis (redisKey data.sessionID) data }

/-- Function `GetSession`: Redis first, then the durable store, re-caching on a
durable hit. -/
def getSession (st : SessStore) (now : Int) (sid : GoStr) :
    SessStore × Except String SessionData :=
  match getSessionFromRedis st now sid with
  | (st1, .ok data) => (st1, .ok data)
  | (st1, .error _) =>
    match getSessionFromDB st1 now sid with
    | .error e => (st1, .error ("session not found: " ++ e))
    | .ok data => (cacheSession st1 now data, .ok data)

/-- The `SET` clause of `UpgradeSessionToAuthenticated`. -/
def upgradeSet (now : Int) (uid : Int) (s : SessionData) : SessionData :=
  { s with userID := some uid, anonymous := false, expiresAt := now + 86400 }

/-- Function `UpgradeSessionToAuthenticated`: run the durable `UPDATE`; when a row
was affected, delete (never overwrite) the cached copy. -/
def upgradeSessionToAuthenticated (st : SessStore) (now : Int) (sid : GoStr)
    (uid : Int) : SessStore × Except String Unit :=
  let sessions2 := st.sessions.map
    (fun s => if s.sessionID == sid then upgradeSet now uid s else s)
  if st.sessions.any (fun s => s.sessionID == sid) then
    ({ st with sessions := sessions2, redis := redisDel st.redis (redisKey sid) }, .ok ())
  else
    ({ st with sessions := sessions2 }, .error "session not found")

/-- Deleting a cache key makes its lookup miss. -/
theorem redisGet_del (cache : List (GoStr × SessionData)) (k : GoStr) :
    redisGet (redisDel cache k) k = none := by
  have hfind : (redisDel cache k).find? (fun p => p.1 == k) = none := by
    rw [List.find?_eq_none]
    intro p hp
    have h2 := (List.mem_filter.mp hp).2
    simp only [bne_iff_ne, ne_eq] at h2
    simp [h2]
  simp [redisGet, hfind]

/-- In the upgraded table, the only row carrying the session id is the
upgraded row. -/
theorem upgraded_unique (st : SessStore) (now : Int) (sid : GoStr) (uid : Int)
    (r : SessionData) (huniq : ∀ x ∈ st.sessions, x.sessionID = sid → x = r) :
    ∀ x ∈ st.sessions.map
        (fun s => if s.sessionID == sid then upgradeSet now uid s else s),
      x.sessionID = sid → x = upgradeSet now uid r := by
  intro x hx hxsid
  rcases List.mem_map.mp hx with ⟨y, hy, rfl⟩
  by_cases h : y.sessionID = sid
  · have hyr := huniq y hy h
    subst hyr
    rw [if_pos (beq_iff_eq.mpr h)]
  · have hb : (y.sessionID == sid) = false := beq_eq_false_iff_ne.mpr h
    rw [if_neg (by simp [hb])] at hxsid ⊢
    exact absurd hxsid h

/-! ### C5: `UpgradeSessionToAuthenticated` then `GetSession` -/

/-- C5: upgrading the unique (anonymous) durable row for a session id
succeeds, rewrites that row to non-anonymous with the given identity and
expiry 24 hours (86400 s) from the upgrade, deletes the cached copy rather
than overwriting it, and every subsequent `GetSession` before the new expiry
returns the upgraded authenticated record — never any anonymous state. -/
theorem upgradeSession_spec (st : SessStore) (now : Int) (sid : GoStr) (uid : Int)
    (r : SessionData)
    (hr : r ∈ st.sessions) (hsid : r.sessionID = sid)
    (huniq : ∀ x ∈ st.sessions, x.sessionID = sid → x = r)
    (hanon : r.anonymous = true) :
    (upgradeSessionToAuthenticated st now sid uid).2 = .ok () ∧
    upgradeSet now uid r ∈ (upgradeSessionToAuthenticated st now sid uid).1.sessions ∧
    redisGet (upgradeSessionToAuthenticated st now sid uid).1.redis (redisKey sid) = none ∧
    (∀ now2, now2 < now + 86400 →
       (getSession (upgradeSessionToAuthenticated st now sid uid).1 now2 sid).2 =
         .ok { upgradeSet now uid r with
               username := lookupUsername st.users (some uid) }) ∧
    (∀ now2 d,
       (getSession (upgradeSessionToAuthenticated st now sid uid).1 now2 sid).2 = .ok d →
       d.anonymous = false ∧ d.userID = some uid) := by
  have hb : (r.sessionID == sid) = true := beq_iff_eq.mpr hsid
  have hany : st.sessions.any (fun s => s.sessionID == sid) = true :=
    List.any_eq_true.mpr ⟨r, hr, hb⟩
  have hU : upgradeSessionToAuthenticated st now sid uid =
      ({ st with
         sessions := st.sessions.map
           (fun s => if s.sessionID == sid then upgradeSet now uid s else s),
         redis := redisDel st.redis (redisKey sid) }, .ok ()) := by
    simp [upgradeSessionToAuthenticated, hany]
  have hmemU : upgradeSet now uid r ∈ st.sessions.map
      (fun s => if s.sessionID == sid then upgradeSet now uid s else s) :=
    List.mem_map.mpr ⟨r, hr, by simp [hb]⟩
  have hred : ∀ now2 : Int,
      getSessionFromRedis
        { st with
          sessions := st.sessions.map
            (fun s => if s.sessionID == sid then upgradeSet now uid s else s),
          redis := redisDel st.redis (redisKey sid) } now2 sid =
      ({ st with
         sessions := st.sessions.map
           (fun s => if s.sessionID == sid then upgradeSet now uid s else s),
         redis := redisDel st.redis (redisKey sid) }, .error "session not in cache") := by
    intro now2
    simp [getSessionFromRedis, redisGet_del]
  refine ⟨by rw [hU], by rw [hU]; exact hmemU, by rw [hU]; exact redisGet_del _ _, ?_, ?_⟩
  · intro now2 h2
    have hfind : (st.sessions.map
        (fun s => if s.sessionID == sid then upgradeSet now uid s else s)).find?
        (fun s => s.sessionID == sid && decide (now2 < s.expiresAt)) =
        some (upgradeSet now uid r) := by
      apply find?_unique _ _ _ hmemU
      · simp [upgradeSet, hsid, h2]
      · intro x hx hpx
        simp only [Bool.and_eq_true, beq_iff_eq, decide_eq_true_eq] at hpx
        exact upgraded_unique st now sid uid r huniq x hx hpx.1
    rw [hU]
    simp only [getSession, hred now2, getSessionFromDB, hfind]
    simp [upgradeSet]
  · intro now2 d hd
    rw [hU] at hd
    simp only [getSession, hred now2, getSessionFromDB] at hd
    cases hfind : (st.sessions.map
        (fun s => if s.sessionID == sid then upgradeSet now uid s else s)).find?
        (fun s => s.sessionID == sid && decide (now2 < s.expiresAt)) with
    | none => rw [hfind] at hd; cases hd
    | some s =>
      rw [hfind] at hd
      have hmem := List.mem_of_find?_eq_some hfind
      have hp := List.find?_some hfind
      simp only [Bool.and_eq_true, beq_iff_eq, decide_eq_true_eq] at hp
      have hs := upgraded_unique st now sid uid r huniq s hmem hp.1
      cases hd
      subst hs
      exact ⟨rfl, rfl⟩

/-- An anonymous session row used by the witnesses. -/
def sessRow0 : SessionData :=
  { sessionID := str "sid1", userID := none, username := [],
    publicKey := str "pk", ipAddress := str "ip", anonymous := true,
    createdAt := 0, lastSeenAt := 0, expiresAt := 50 }

/-- C5 witness: upgrading the one-row store (with the anonymous session also
cached) and reading it back at a later time returns the authenticated record. -/
theorem upgradeSession_spec_witness :
    (upgradeSessionToAuthenticated
        { redis := [(redisKey (str "sid1"), sessRow0)], sessions := [sessRow0],
          users := [(7, str "alice")] } 40 (str "sid1") 7).2 = .ok () ∧
    redisGet (upgradeSessionToAuthenticated
        { redis := [(redisKey (str "sid1"), sessRow0)], sessions := [sessRow0],
          users := [(7, str "alice")] } 40 (str "sid1") 7).1.redis
        (redisKey (str "sid1")) = none ∧
    (getSession (upgradeSessionToAuthenticated
        { redis := [(redisKey (str "sid1"), sessRow0)], sessions := [sessRow0],
          users := [(7, str "alice")] } 40 (str "sid1") 7).1 100 (str "sid1")).2 =
      .ok { upgradeSet 40 7 sessRow0 with
            username := lookupUsername [(7, str "alice")] (some 7) } := by
  have h := upgradeSession_spec
    { redis := [(redisKey (str "sid1"), sessRow0)], sessions := [sessRow0],
      users := [(7, str "alice")] } 40 (str "sid1") 7 sessRow0
    (by decide) (by decide) (by decide) (by decide)
  exact ⟨h.1, h.2.2.1, h.2.2.2.1 100 (by decide)⟩

/-! ### C6: reading an expired session -/

/-- A store whose only (durable, uncached) session row is already expired. -/
def stExpired : SessStore := { redis := [], sessions := [sessRow0], users := [] }

/-- C6 counterexample: reading the expired session `sid1` (expiry 50) at time
100 returns a not-found outcome, but the expired durable row is NOT deleted
by the read: the durable delete happens only on the cache-hit path, and here
the cache is empty. -/
theorem getSession_expired_counterexample :
    (getSession stExpired 100 (str "sid1")).2 =
      .error "session not found: session not found in database" ∧
    sessRow0 ∈ (getSession stExpired 100 (str "sid1")).1.sessions := by
  constructor <;> decide

/-- C6 (amended): for a session id whose unique durable row is past expiry,
`GetSession` returns a not-found outcome; when the expired entry is found in
the cache tier, the read also deletes both the cache entry and the durable
row; on a cache miss the read leaves the store unchanged, the expired
durable row included. -/
theorem getSession_expired_amended (st : SessStore) (now : Int) (sid : GoStr)
    (r : SessionData)
    (hr : r ∈ st.sessions) (hsid : r.sessionID = sid)
    (huniq : ∀ x ∈ st.sessions, x.sessionID = sid → x = r)
    (hexp : r.expiresAt < now) :
    (redisGet st.redis (redisKey sid) = some r →
       getSession st now sid =
         (deleteSession st sid,
          .error "session not found: session not found in database") ∧
       (∀ x ∈ (deleteSession st sid).sessions, x.sessionID ≠ sid) ∧
       redisGet (deleteSession st sid).redis (redisKey sid) = none) ∧
    (redisGet st.redis (redisKey sid) = none →
       getSession st now sid =
         (st, .error "session not found: session not found in database") ∧
       r ∈ st.sessions) := by
  constructor
  · intro hcache
    have hnot : ∀ x ∈ (deleteSession st sid).sessions, x.sessionID ≠ sid := by
      intro x hx
      have h2 := (List.mem_filter.mp hx).2
      simpa using h2
    have hdb : getSessionFromDB (deleteSession st sid) now sid =
        .error "session not found in database" := by
      rw [getSessionFromDB, List.find?_eq_none.mpr]
      intro x hx
      have := hnot x hx
      simp [beq_eq_false_iff_ne.mpr this]
    have hredis : getSessionFromRedis st now sid =
        (deleteSession st sid, .error "session expired") := by
      simp [getSessionFromRedis, hcache, hexp]
    refine ⟨?_, hnot, redisGet_del _ _⟩
    simp [getSession, hredis, hdb]
  · intro hmiss
    have hdb : getSessionFromDB st now sid = .error "session not found in database" := by
      rw [getSessionFromDB, List.find?_eq_none.mpr]
      intro x hx
      by_cases h : x.sessionID = sid
      · have hx_eq := huniq x hx h
        subst hx_eq
        have : (decide (now < x.expiresAt)) = false := decide_eq_false (by omega)
        simp [this]
      · simp [beq_eq_false_iff_ne.mpr h]
    have hredis : getSessionFromRedis st now sid =
        (st, .error "session not in cache") := by
      simp [getSessionFromRedis, hmiss]
    refine ⟨?_, hr⟩
    simp [getSession, hredis, hdb]

/-- C6 witness: the amended expiry theorem applied to the expired one-row
store, once with the expired entry cached and once with an empty cache. -/
theorem getSession_expired_amended_witness :
    (getSession { redis := [(redisKey (str "sid1"), sessRow0)],
                  sessions := [sessRow0], users := [] } 100 (str "sid1") =
       (deleteSession { redis := [(redisKey (str "sid1"), sessRow0)],
                        sessions := [sessRow0], users := [] } (str "sid1"),
        .error "session not found: session not found in database")) ∧
    (getSession stExpired 100 (str "sid1") =
       (stExpired, .error "session not found: session not found in database") ∧
     sessRow0 ∈ stExpired.sessions) := by
  have hA := getSession_expired_amended
    { redis := [(redisKey (str "sid1"), sessRow0)], sessions := [sessRow0], users := [] }
    100 (str "sid1") sessRow0 (by decide) (by decide) (by decide) (by decide)
  have hB := getSession_expired_amended stExpired 100 (str "sid1") sessRow0
    (by decide) (by decide) (by decide) (by decide)
  exact ⟨(hA.1 (by decide)).1, hB.2 (by decide)⟩

/-! ## HTTP signatures (src/internal/activitypub/crypto.go)

`http.Request` is embedded with the fields the code touches: method, URL
path and host, the `Host` field, the header map, and the body bytes.  The
header map follows Go `net/http`: keys are canonicalized by `Set`/`Get`
(`textproto.CanonicalMIMEHeaderKey`).  The Go standard-library RSA layer
(`rsa.SignPKCS1v15` / `rsa.VerifyPKCS1v15` over PEM-encoded keys) is
idealized as a symbolic signature scheme: key pair `n` serializes to
recognizable private/public PEM strings, a signature is a token determined
by the key id and the exact signed data, and verification succeeds exactly
for the matching key and data.  This models the cryptographic contract the
repository relies on; everything above that layer (signing-string
construction, header handling, signature-header syntax) is translated
clause by clause from crypto.go. -/

/-- The non-alphanumeric bytes Go `textproto` accepts in a header field
name (`validHeaderFieldByte`); char 39 is the apostrophe and 96 the
backquote. -/
def tokenExtra : GoStr :=
  ['!', '#', '$', '%', '&', Char.ofNat 39, '*', '+', '-', '.', '^', '_',
   Char.ofNat 96, '|', '~']

/-- Go `validHeaderFieldByte`. -/
def validHeaderFieldChar (c : Char) : Bool :=
  ('0' ≤ c && c ≤ '9') || ('a' ≤ c && c ≤ 'z') || ('A' ≤ c && c ≤ 'Z') ||
    tokenExtra.contains c

/-- The case-mangling loop of `textproto.CanonicalMIMEHeaderKey`: uppercase
at the start and after each hyphen, lowercase elsewhere. -/
def canonLoop : Bool → GoStr → GoStr
  | _, [] => []
  | upper, c :: rest =>
    let c2 := if upper then upA c else loA c
    c2 :: canonLoop (c2 == '-') rest

/-- Go `http.CanonicalHeaderKey`: keys with invalid bytes pass through
unchanged, valid keys are case-canonicalized. -/
def canonicalHeaderKey (s : GoStr) : GoStr :=
  if s.all validHeaderFieldChar then canonLoop true s else s

/-- Go `http.Header.Get`: first value under the canonicalized key, or "". -/
def headerGet (hs : List (GoStr × GoStr)) (k : GoStr) : GoStr :=
  match hs.find? (fun p => p.1 == canonicalHeaderKey k) with
  | some p => p.2
  | none => []

/-- Go `http.Header.Set`: replace the values under the canonicalized key. -/
def headerSet (hs : List (GoStr × GoStr)) (k v : GoStr) : List (GoStr × GoStr) :=
  let ck := canonicalHeaderKey k
  if hs.any (fun p => p.1 == ck) then
    hs.map (fun p => if p.1 == ck then (ck, v) else p)
  else hs ++ [(ck, v)]

/-- The fields of `http.Request` the signature engine reads and writes. -/
structure HTTPRequest where
  method : GoStr
  urlPath : GoStr
  urlHost : GoStr
  host : GoStr
  headers : List (GoStr × GoStr)
  body : Option (List Nat)
deriving DecidableEq, Repr

/-! ### The idealized RSA layer -/

/-- The private-key PEM of symbolic key pair `n` (`GenerateRSAKeyPair`). -/
def privPem (n : Nat) : GoStr := str "PRIVATEKEY-" ++ Nat.toDigits 10 n

/-- The public-key PEM of symbolic key pair `n`. -/
def pubPem (n : Nat) : GoStr := str "PUBLICKEY-" ++ Nat.toDigits 10 n

/-- Decimal decoding, the inverse of `Nat.toDigits 10`. -/
def digitsToNat (l : GoStr) : Nat :=
  l.foldl (fun acc c => acc * 10 + (c.toNat - 48)) 0

/-- Function `parsePrivateKey`: recognize a private-key PEM, or fail as the PEM
decoder does. -/
def parsePrivateKey (s : GoStr) : Except String Nat :=
  if (str "PRIVATEKEY-").isPrefixOf s then
    let rest := s.drop (str "PRIVATEKEY-").length
    if rest ≠ [] && rest.all Char.isDigit then .ok (digitsToNat rest)
    else .error "failed to decode PEM block"
  else .error "failed to decode PEM block"

/-- Function `parsePublicKey`: recognize a public-key PEM. -/
def parsePublicKey (s : GoStr) : Except String Nat :=
  if (str "PUBLICKEY-").isPrefixOf s then
    let rest := s.drop (str "PUBLICKEY-").length
    if rest ≠ [] && rest.all Char.isDigit then .ok (digitsToNat rest)
    else .error "failed to decode PEM block"
  else .error "failed to decode PEM block"

/-- The symbolic signature over `data` by key pair `n`: the key id in
decimal, a dot, and the base64 of the signed data — the same character
alphabet a real base64 RSA signature occupies (never `,` or `"`). -/
def sigToken (n : Nat) (data : GoStr) : GoStr :=
  Nat.toDigits 10 n ++ ['.'] ++ base64Std (data.map Char.toNat)

/-- Function `signString` from crypto.go over the idealized RSA layer. -/
def signString (data : GoStr) (privateKeyPEM : GoStr) : Except String GoStr :=
  match parsePrivateKey privateKeyPEM with
  | .error e => .error e
  | .ok n => .ok (sigToken n data)

/-- Function `verifyString` from crypto.go over the idealized RSA layer: succeed
exactly when the signature is the matching key's token over the same data. -/
def verifyString (data sig : GoStr) (publicKeyPEM : GoStr) : Except String Unit :=
  match parsePublicKey publicKeyPEM with
  | .error e => .error e
  | .ok n =>
    if sig == sigToken n data then .ok ()
    else .error "crypto/rsa: verification error"

/-! ### `SignRequest` -/

/-- The first half of `SignRequest`: set the `Date` header to the current
time, and for a `POST`/`PUT` with a body compute and set the `Digest`
header (`SHA-256=` + base64 of the body's SHA-256).  The body itself is
re-wrapped unchanged. -/
def signDateDigest (r : HTTPRequest) (now : GoStr) : HTTPRequest :=
  let r1 : HTTPRequest := { r with headers := headerSet r.headers (str "Date") now }
  match r1.body with
  | some bodyBytes =>
    if r1.method = str "POST" ∨ r1.method = str "PUT" then
      let dv := str "SHA-256=" ++ base64Std (sha256 bodyBytes)
      { r1 with headers := headerSet r1.headers (str "Digest") dv }
    else r1
  | none => r1

/-- The signed header list: `(request-target) host date`, plus `digest`
when a `Digest` header is present. -/
def signHeaderList (r : HTTPRequest) : List GoStr :=
  [str "(request-target)", str "host", str "date"] ++
    (if headerGet r.headers (str "Digest") ≠ [] then [str "digest"] else [])

/-- The value a header name contributes to the signing string on the
signing side: the request target line, the `Host` field (falling back to
the URL host), or the header value. -/
def signValue (r : HTTPRequest) (h : GoStr) : GoStr :=
  if h = str "(request-target)" then goToLower r.method ++ [' '] ++ r.urlPath
  else if h = str "host" then (if r.host = [] then r.urlHost else r.host)
  else headerGet r.headers h

/-- The canonical signing string: `name: value` lines joined by newlines. -/
def signingStringOf (r : HTTPRequest) : GoStr :=
  goJoin ((signHeaderList r).map (fun h => h ++ str ": " ++ signValue r h)) (str "\n")

/-- The `Signature` header value. -/
def signatureHeaderValue (keyID : GoStr) (headerList : List GoStr) (signature : GoStr) :
    GoStr :=
  str "keyId=\"" ++ keyID ++ str "\",algorithm=\"rsa-sha256\",headers=\"" ++
    goJoin headerList (str " ") ++ str "\",signature=\"" ++ signature ++ str "\""

/-- Function `SignRequest` from crypto.go. -/
def signRequest (r : HTTPRequest) (privateKeyPEM keyID now : GoStr) :
    Except String HTTPRequest :=
  let r2 := signDateDigest r now
  match signString (signingStringOf r2) privateKeyPEM with
  | .error e => .error ("failed to sign string: " ++ e)
  | .ok signature =>
    let shv := signatureHeaderValue keyID (signHeaderList r2) signature
    .ok { r2 with headers := headerSet r2.headers (str "Signature") shv }

/-! ### `VerifyRequest` -/

/-- The parsed form of a `Signature` header (`HTTPSignature` in crypto.go),
zero-valued like the Go struct literal. -/
structure HTTPSignature where
  keyID : GoStr := []
  algorithm : GoStr := []
  headerNames : List GoStr := []
  signature : GoStr := []
deriving DecidableEq, Repr

/-- Go `strings.TrimSpace` (ASCII whitespace, the repository's domain). -/
def isSpaceGo (c : Char) : Bool := c == ' ' || c == '\t' || c == '\n' || c == '\r'

def goTrimSpace (s : GoStr) : GoStr :=
  ((s.dropWhile isSpaceGo).reverse.dropWhile isSpaceGo).reverse

/-- Go `strings.Trim(s, cutset)` for a one-character cutset. -/
def goTrimChar (c : Char) (s : GoStr) : GoStr :=
  ((s.dropWhile (· == c)).reverse.dropWhile (· == c)).reverse

/-- Go `strings.SplitN(s, sep, 2)` for a one-character separator, as the
optional split at the first occurrence (`none` when `sep` is absent, which
Go reports as a 1-element split). -/
def splitFirst (sep : Char) : GoStr → Option (GoStr × GoStr)
  | [] => none
  | c :: rest =>
    if c = sep then some ([], rest)
    else
      match splitFirst sep rest with
      | some (a, b) => some (c :: a, b)
      | none => none

/-- One `key="value"` item of `parseSignatureHeader`'s loop. -/
def parseSigPart (sig : HTTPSignature) (part : GoStr) : HTTPSignature :=
  match splitFirst '=' (goTrimSpace part) with
  | none => sig
  | some (k, v0) =>
    let v := goTrimChar '"' v0
    if k = str "keyId" then { sig with keyID := v }
    else if k = str "algorithm" then { sig with algorithm := v }
    else if k = str "headers" then { sig with headerNames := v.splitOn ' ' }
    else if k = str "signature" then { sig with signature := v }
    else sig

/-- Function `parseSignatureHeader` from crypto.go. -/
def parseSignatureHeader (header : GoStr) : Except String HTTPSignature :=
  let sig := (header.splitOn ',').foldl parseSigPart {}
  if sig.keyID = [] ∨ sig.signature = [] then
    .error "invalid signature header: missing keyId or signature"
  else .ok sig

/-- The signing-string reconstruction loop of `VerifyRequest`: the request
target is recomputed, every other named header is read from the header map
(note: the map, not the `Host` field) and must be non-empty. -/
def buildVerifyParts (r : HTTPRequest) : List GoStr → Except String (List GoStr)
  | [] => .ok []
  | h :: rest =>
    if h = str "(request-target)" then
      match buildVerifyParts r rest with
      | .error e => .error e
      | .ok parts => .ok ((h ++ str ": " ++ (goToLower r.method ++ [' '] ++ r.urlPath)) :: parts)
    else
      let value := headerGet r.headers h
      if value = [] then .error ("missing header: " ++ String.mk h)
      else
        match buildVerifyParts r rest with
        | .error e => .error e
        | .ok parts => .ok ((h ++ str ": " ++ value) :: parts)

/-- Function `VerifyRequest` from crypto.go. -/
def verifyRequest (r : HTTPRequest) (publicKeyPEM : GoStr) : Except String Unit :=
  let sigHeader := headerGet r.headers (str "Signature")
  if sigHeader = [] then .error "missing Signature header"
  else
    match parseSignatureHeader sigHeader with
    | .error e => .error ("failed to parse signature: " ++ e)
    | .ok sig =>
      match buildVerifyParts r sig.headerNames with
      | .error e => .error e
      | .ok parts => verifyString (goJoin parts (str "\n")) sig.signature publicKeyPEM

/-- Sign a request and verify the very same (now signed) request, as the
round-trip claim describes. -/
def signThenVerify (r : HTTPRequest) (priv pub keyID now : GoStr) :
    Except String Unit :=
  match signRequest r priv keyID now with
  | .error e => .error e
  | .ok signed => verifyRequest signed pub

/-! ### Header-map lemmas -/

theorem find?_cons_pos {α : Type} (p : α → Bool) (a : α) (l : List α)
    (h : p a = true) : (a :: l).find? p = some a :=
  List.find?_cons_of_pos _ h

theorem find?_cons_neg {α : Type} (p : α → Bool) (a : α) (l : List α)
    (h : p a = false) : (a :: l).find? p = l.find? p :=
  List.find?_cons_of_neg _ (by simp [h])

theorem find?_set_map (hs : List (GoStr × GoStr)) (ck v : GoStr)
    (hany : hs.any (fun p => p.1 == ck) = true) :
    (hs.map (fun p => if p.1 == ck then (ck, v) else p)).find?
        (fun p => p.1 == ck) = some (ck, v) := by
  induction hs with
  | nil => cases hany
  | cons p0 t ih =>
    by_cases h0 : (p0.1 == ck) = true
    · rw [List.map_cons, if_pos h0, find?_cons_pos (fun p => p.1 == ck) (ck, v) _ (by simp)]
    · have hany' : t.any (fun p => p.1 == ck) = true := by
        rcases List.any_eq_true.mp hany with ⟨x, hx, hpx⟩
        rcases List.mem_cons.mp hx with heq | hmem
        · exact absurd (heq ▸ hpx) h0
        · exact List.any_eq_true.mpr ⟨x, hmem, hpx⟩
      have h0f : (p0.1 == ck) = false := Bool.eq_false_iff.mpr h0
      rw [List.map_cons, if_neg h0, find?_cons_neg (fun p => p.1 == ck) p0 _ h0f]
      exact ih hany'

theorem find?_map_other (hs : List (GoStr × GoStr)) (ck ck' v : GoStr)
    (hne : ck' ≠ ck) :
    (hs.map (fun p => if p.1 == ck then (ck, v) else p)).find?
        (fun p => p.1 == ck') = hs.find? (fun p => p.1 == ck') := by
  induction hs with
  | nil => rfl
  | cons p0 t ih =>
    by_cases h0 : (p0.1 == ck) = true
    · have hp0 : p0.1 = ck := beq_iff_eq.mp h0
      have hck : (ck == ck') = false := beq_eq_false_iff_ne.mpr (Ne.symm hne)
      have hp0' : (p0.1 == ck') = false := by
        rw [hp0]; exact hck
      rw [List.map_cons, if_pos h0, find?_cons_neg (fun p => p.1 == ck') (ck, v) _ hck,
          find?_cons_neg (fun p => p.1 == ck') p0 _ hp0']
      exact ih
    · by_cases h1 : (p0.1 == ck') = true
      · rw [List.map_cons, if_neg h0, find?_cons_pos (fun p => p.1 == ck') p0 _ h1,
            find?_cons_pos (fun p => p.1 == ck') p0 _ h1]
      · have h1f : (p0.1 == ck') = false := Bool.eq_false_iff.mpr h1
        rw [List.map_cons, if_neg h0, find?_cons_neg (fun p => p.1 == ck') p0 _ h1f,
            find?_cons_neg (fun p => p.1 == ck') p0 _ h1f]
        exact ih

theorem find?_append_single_none {α : Type} (p : α → Bool) (l : List α) (a : α)
    (ha : p a = false) : (l ++ [a]).find? p = l.find? p := by
  induction l with
  | nil => simp [List.find?, ha]
  | cons x t ih =>
    by_cases hx : p x = true
    · simp [List.find?, hx]
    · have hxf : p x = false := Bool.eq_false_iff.mpr hx
      simp [List.find?, hxf, ih]

theorem find?_append_of_none {α : Type} (p : α → Bool) (l1 l2 : List α)
    (h : ∀ x ∈ l1, p x = false) : (l1 ++ l2).find? p = l2.find? p := by
  induction l1 with
  | nil => rfl
  | cons x t ih =>
    have hx := h x (List.mem_cons_self x t)
    simp [List.find?, hx, ih (fun y hy => h y (List.mem_cons_of_mem x hy))]

/-- Reading after `Set` of the same (canonically equal) key yields the set
value. -/
theorem headerGet_headerSet_same (hs : List (GoStr × GoStr)) (k k' v : GoStr)
    (h : canonicalHeaderKey k' = canonicalHeaderKey k) :
    headerGet (headerSet hs k v) k' = v := by
  rw [headerGet, headerSet, h]
  by_cases hany : hs.any (fun p => p.1 == canonicalHeaderKey k) = true
  · rw [if_pos hany, find?_set_map hs (canonicalHeaderKey k) v hany]
  · rw [if_neg hany]
    have hf : hs.any (fun p => p.1 == canonicalHeaderKey k) = false :=
      Bool.eq_false_iff.mpr hany
    have hall : ∀ x ∈ hs, (x.1 == canonicalHeaderKey k) = false := by
      intro x hx
      exact Bool.eq_false_iff.mpr (List.any_eq_false.mp hf x hx)
    rw [find?_append_of_none _ hs _ hall]
    simp [List.find?]

/-- Reading after `Set` of a canonically different key is unchanged. -/
theorem headerGet_headerSet_other (hs : List (GoStr × GoStr)) (k k' v : GoStr)
    (hne : canonicalHeaderKey k' ≠ canonicalHeaderKey k) :
    headerGet (headerSet hs k v) k' = headerGet hs k' := by
  rw [headerGet, headerGet, headerSet]
  by_cases hany : hs.any (fun p => p.1 == canonicalHeaderKey k) = true
  · rw [if_pos hany,
        find?_map_other hs (canonicalHeaderKey k) (canonicalHeaderKey k') v hne]
  · rw [if_neg hany,
        find?_append_single_none (fun p => p.1 == canonicalHeaderKey k') hs
          (canonicalHeaderKey k, v) (beq_eq_false_iff_ne.mpr (Ne.symm hne))]

/-- The header map after the date/digest phase of `SignRequest` agrees, away
from `Digest`, with the map after setting `Date`. -/
theorem signDateDigest_headers (r : HTTPRequest) (now : GoStr) (k : GoStr)
    (hk : canonicalHeaderKey k ≠ str "Digest") :
    headerGet (signDateDigest r now).headers k =
      headerGet (headerSet r.headers (str "Date") now) k := by
  have hdig : canonicalHeaderKey (str "Digest") = str "Digest" := by decide
  rw [signDateDigest]
  cases hb : r.body with
  | none => rfl
  | some bodyBytes =>
    by_cases hm : r.method = str "POST" ∨ r.method = str "PUT"
    · simp only [hb]
      rw [if_pos hm]
      exact headerGet_headerSet_other _ _ _ _ (by rw [hdig]; exact hk)
    · simp only [hb]
      rw [if_neg hm]

/-- The header map produced by `SignRequest` on success. -/
def headersAfterSign (r : HTTPRequest) (priv kid now : GoStr) :
    List (GoStr × GoStr) :=
  match signRequest r priv kid now with
  | .ok r2 => r2.headers
  | .error _ => r.headers

/-! ### C10: `SignRequest` overwrites `Date` and touches nothing else -/

/-- C10: a successful `SignRequest` leaves the request's `Date` header equal
to the formatted current time (any previous value is overwritten), and every
header other than `Date`, `Digest`, and `Signature` is unchanged. -/
theorem signRequest_frame (r : HTTPRequest) (priv kid now : GoStr)
    (h : (signRequest r priv kid now).isOk = true) :
    headerGet (headersAfterSign r priv kid now) (str "Date") = now ∧
    ∀ k, canonicalHeaderKey k ≠ str "Date" →
      canonicalHeaderKey k ≠ str "Digest" →
      canonicalHeaderKey k ≠ str "Signature" →
      headerGet (headersAfterSign r priv kid now) k = headerGet r.headers k := by
  have hdate : canonicalHeaderKey (str "Date") = str "Date" := by decide
  have hsig : canonicalHeaderKey (str "Signature") = str "Signature" := by decide
  cases hs : signString (signingStringOf (signDateDigest r now)) priv with
  | error e => simp [signRequest, hs, Except.isOk, Except.toBool] at h
  | ok sigv =>
    have hH : headersAfterSign r priv kid now =
        headerSet (signDateDigest r now).headers (str "Signature")
          (signatureHeaderValue kid (signHeaderList (signDateDigest r now)) sigv) := by
      simp [headersAfterSign, signRequest, hs]
    constructor
    · rw [hH,
          headerGet_headerSet_other _ _ _ _ (by rw [hdate, hsig]; decide),
          signDateDigest_headers r now _ (by rw [hdate]; decide),
          headerGet_headerSet_same _ _ _ _ rfl]
    · intro k hkd hkg hks
      rw [hH,
          headerGet_headerSet_other _ _ _ _ (by rw [hsig]; exact hks),
          signDateDigest_headers r now k hkg,
          headerGet_headerSet_other _ _ _ _ (by rw [hdate]; exact hkd)]

/-- A request carrying a custom header and a stale `Date`, for the C10
witness. -/
def reqW : HTTPRequest :=
  { method := str "GET", urlPath := str "/x", urlHost := str "e.com",
    host := str "e.com",
    headers := [(str "X-Custom", str "zzz"), (str "Date", str "old")],
    body := none }

/-- C10 witness: signing `reqW` overwrites its stale `Date` with the given
time and leaves `X-Custom` untouched. -/
theorem signRequest_frame_witness :
    headerGet (headersAfterSign reqW (privPem 1) (str "kid") (str "NOW")) (str "Date") =
      str "NOW" ∧
    headerGet (headersAfterSign reqW (privPem 1) (str "kid") (str "NOW")) (str "X-Custom") =
      headerGet reqW.headers (str "X-Custom") := by
  have h := signRequest_frame reqW (privPem 1) (str "kid") (str "NOW") (by decide)
  exact ⟨h.1, h.2 (str "X-Custom") (by decide) (by decide) (by decide)⟩

/-! ### C1: the sign/verify round trip -/

/-- The request of the C1 failing input: a GET to
`https://example.com/inbox` created the way the repository creates outbound
requests (`http.NewRequest`), so the host lives in the request's `Host`
field / URL and the header map carries no `Host` entry. -/
def req0 : HTTPRequest :=
  { method := str "GET", urlPath := str "/inbox", urlHost := str "example.com",
    host := str "example.com", headers := [], body := none }

/-- C1: evaluating the code at the failing input.  `SignRequest` succeeds
(signing the host taken from the `Host` *field*), but `VerifyRequest` on the
very same request reads the `host` value from the header map, finds no
`Host` header, and fails with `missing header: host` — the claimed
sign-then-verify round trip does not succeed. -/
theorem signThenVerify_missing_host :
    (signRequest req0 (privPem 1) (str "https://tp/users/a#main-key")
        (str "Mon, 02 Jan 2006 15:04:05 GMT")).isOk = true ∧
    signThenVerify req0 (privPem 1) (pubPem 1) (str "https://tp/users/a#main-key")
        (str "Mon, 02 Jan 2006 15:04:05 GMT") = .error "missing header: host" := by
  constructor
  · decide
  · decide

end Terminalpub
